import Mathlib

/-!
# Verification of the project_creator_core repository

Shallow embedding of the repository's five Python source files:

* `templates.py` — `TemplateInfo`, `list_project_templates`
* `preload_sets.py` — `PreloadSet`, `parse_preload_sets`
* `project_creation_wizard.py` — `_to_snake_case`, the module-URL merge
  (`list(dict.fromkeys(always_urls + selected_urls))`), `_choices_map`,
  and the menu-selection fragment around it
* `project_creator.py` — `ProjectCreator.create` and its helper methods,
  modelled as a pure function from an environment of external effects
  (path resolution, clone, remote-repo creation) to a result together
  with the ordered trace of side effects it performs.

YAML documents reaching the catalog readers are already parsed generic
values; they are modelled by the inductive `YVal` below, and Python's
`str(...)` coercion by `pyStr` (container rendering is kept simple —
only scalar cases and non-emptiness of the rendering matter here).
-/

/-- A parsed YAML value as the Python code sees it: string, integer,
boolean, `None`, list, or mapping (insertion-ordered, as Python dicts are). -/
inductive YVal where
  | s (v : String)
  | i (n : Int)
  | b (v : Bool)
  | null
  | list (vs : List YVal)
  | map (entries : List (String × YVal))

/-- Python `str(...)` coercion. Scalars follow Python exactly
(`str(None) = "None"`, `str(True) = "True"`); containers render inside
brackets/braces, which is all the code under verification depends on
(their rendering is never empty). -/
def pyStr : YVal → String
  | .s v => v
  | .i n => toString n
  | .b true => "True"
  | .b false => "False"
  | .null => "None"
  | .list vs => "[" ++ String.intercalate ", " (vs.attach.map fun v => pyStr v.1) ++ "]"
  | .map es => "\x7b" ++ String.intercalate ", " (es.attach.map fun e => pyStr e.1.2) ++ "\x7d"
termination_by v => sizeOf v
decreasing_by
  · have := List.sizeOf_lt_of_mem v.2
    simp only [YVal.list.sizeOf_spec]
    omega
  · have h1 := List.sizeOf_lt_of_mem e.2
    obtain ⟨⟨a, b⟩, hm⟩ := e
    simp only [Prod.mk.sizeOf_spec] at h1
    simp only [YVal.map.sizeOf_spec]
    omega

/-- `d.get(key, default)` on a Python dict modelled as an ordered
association list (Python dicts iterate in insertion order). -/
def yGet (entries : List (String × YVal)) (key : String) (default : YVal) : YVal :=
  match entries.lookup key with
  | some v => v
  | none => default

/-- Key lookup on a mapping `YVal` (`none` when the value is not a
mapping or the key is absent). -/
def yLookup (v : YVal) (key : String) : Option YVal :=
  match v with
  | .map fields => fields.lookup key
  | _ => none

/-! ## templates.py -/

/-- `TemplateInfo` dataclass from `templates.py`. -/
structure TemplateInfo where
  name : String
  description : String
  url : String
deriving DecidableEq

/-- The body of the `for name, value in data.items()` loop of
`list_project_templates`: emits a `TemplateInfo` when the entry's
(string-coerced) url is non-empty, raises when the entry value is not a
mapping. -/
def listTemplatesGo : List (String × YVal) → Except String (List TemplateInfo)
  | [] => .ok []
  | (name, value) :: rest =>
    match value with
    | .map fields =>
      let desc := pyStr (yGet fields "description" (.s ""))
      let url := pyStr (yGet fields "url" (.s ""))
      match listTemplatesGo rest with
      | .ok out => .ok (if url = "" then out else ⟨name, desc, url⟩ :: out)
      | .error e => .error e
    | _ => .error "Each template entry must be a mapping with \x27description\x27 and \x27url\x27"

/-- `list_project_templates` from `templates.py`: the top-level document
must be a mapping; each entry must map to a mapping; entries whose
`url` coerces to the empty string are silently skipped. -/
def list_project_templates (data : YVal) : Except String (List TemplateInfo) :=
  match data with
  | .map entries => listTemplatesGo entries
  | _ => .error "templates YAML must be a mapping of template name -> \x7bdescription, url\x7d"

/-! ## preload_sets.py -/

/-- `PreloadSet` dataclass from `preload_sets.py`. -/
structure PreloadSet where
  name : String
  description : String
  urls : List String
deriving DecidableEq

/-- The body of the `for name, value in options.items()` loop of
`parse_preload_sets`: a mapping entry yields its coerced description and
its `urls` when that value is a list; any other entry shape yields an
empty description and empty urls. -/
def preloadSetOfEntry (name : String) (value : YVal) : PreloadSet :=
  match value with
  | .map fields =>
    let desc := pyStr (yGet fields "description" (.s ""))
    let urls := match fields.lookup "urls" with
      | some (.list us) => us.map pyStr
      | _ => []
    ⟨name, desc, urls⟩
  | _ => ⟨name, "", []⟩

/-- `parse_preload_sets` from `preload_sets.py`, over a `YamlFile`
modelled as the underlying mapping. `always` defaults to `[]` and is
ignored unless it is a list; `options` defaults to `{}` and must be a
mapping, otherwise a `ValueError` is raised. -/
def parse_preload_sets (yf : List (String × YVal)) :
    Except String (List String × List PreloadSet) :=
  let always_raw := yGet yf "always" (.list [])
  let options := yGet yf "options" (.map [])
  let always := match always_raw with
    | .list us => us.map pyStr
    | _ => []
  match options with
  | .map opts => .ok (always, opts.map fun e => preloadSetOfEntry e.1 e.2)
  | _ => .error "module_preload_sets.options must be a mapping of set name -> \x7bdescription, urls\x7d"

/-! ## project_creation_wizard.py — `_to_snake_case`

The normalizer is
`re.sub(r"_+", "_", re.sub(r"[^0-9a-zA-Z]+", "_", value.strip())).strip("_").lower() or "project"`.
Characters are compared through their code points (`48–57` = `0-9`,
`65–90` = `A-Z`, `97–122` = `a-z`, `95` = `_`), and a regex substitution
of every maximal run of `p`-characters by the single character `r` is
the flag-carrying scan `collapseGo` (the flag records being inside a
run already rewritten). -/

/-- The character class `[0-9a-zA-Z]` of the first regex. -/
def isAlnumChar (c : Char) : Bool :=
  (48 ≤ c.toNat && c.toNat ≤ 57) || (97 ≤ c.toNat && c.toNat ≤ 122) ||
    (65 ≤ c.toNat && c.toNat ≤ 90)

/-- Python `str.strip()` whitespace (`' '`, `\t`, `\n`, `\r`, `\v`, `\f`). -/
def isSpaceChar (c : Char) : Bool :=
  c == ' ' || c == '\t' || c == '\n' || c == '\r' || c == '\x0b' || c == '\x0c'

/-- `re.sub` of every maximal run of characters satisfying `p` by the single
character `r`: the `Bool` flag is true exactly while inside a run whose
replacement has already been emitted. -/
def collapseGo (p : Char → Bool) (r : Char) : Bool → List Char → List Char
  | _, [] => []
  | inRun, c :: cs =>
    if p c then
      if inRun then collapseGo p r true cs
      else r :: collapseGo p r true cs
    else c :: collapseGo p r false cs

/-- `re.sub(pattern-of-p-runs, r, ·)` on a character list. -/
def collapseRuns (p : Char → Bool) (r : Char) (l : List Char) : List Char :=
  collapseGo p r false l

/-- Python `str.strip(...)` for a single-character class `q`: drop
`q`-characters from both ends. -/
def trimChar (q : Char → Bool) (l : List Char) : List Char :=
  ((l.dropWhile q).reverse.dropWhile q).reverse

/-- Python `str.strip()` (no argument): trim whitespace from both ends. -/
def pyStripList (l : List Char) : List Char :=
  trimChar isSpaceChar l

/-- Python `str.strip()` on a `String`. -/
def pyStripStr (v : String) : String :=
  String.mk (pyStripList v.data)

/-- Python `str.lower()` on one character (only ASCII letters occur at the
point of use: by then every character is `[0-9a-zA-Z_]`). -/
def toLowerChar (c : Char) : Char :=
  if 65 ≤ c.toNat ∧ c.toNat ≤ 90 then Char.ofNat (c.toNat + 32) else c

/-- Python `str.lower()` on a `String` (ASCII model). -/
def pyLowerStr (v : String) : String :=
  String.mk (v.data.map toLowerChar)

/-- `_to_snake_case` from `project_creation_wizard.py`. -/
def to_snake_case (value : String) : String :=
  let cleaned := collapseRuns (fun c => !isAlnumChar c) '_' (pyStripList value.data)
  let cleaned2 := trimChar (fun c => c == '_') (collapseRuns (fun c => c == '_') '_' cleaned)
  let result := cleaned2.map toLowerChar
  if result.isEmpty then "project" else String.mk result

/-! ## project_creation_wizard.py — module-URL merge and menus -/

/-- `list(dict.fromkeys(l))`: left fold inserting each element as a key,
keeping the first occurrence (Python dicts preserve insertion order). -/
def dictFromkeys (l : List String) : List String :=
  l.foldl (fun acc x => if x ∈ acc then acc else acc ++ [x]) []

/-- Line 115 of `project_creation_wizard.py`:
`module_urls = list(dict.fromkeys(always_urls + selected_urls))`. -/
def mergeModuleUrls (always_urls selected_urls : List String) : List String :=
  dictFromkeys (always_urls ++ selected_urls)

/-- The loop of `_choices_map`: insert `(label, item)` pairs in order,
raising `ValueError` on a label already present. -/
def choicesMapGo (formatter : α → String) :
    List α → List (String × α) → Except String (List (String × α))
  | [], lookup => .ok lookup
  | item :: rest, lookup =>
    let label := formatter item
    if (lookup.map Prod.fst).contains label then
      .error "Duplicate option label generated for choices"
    else choicesMapGo formatter rest (lookup ++ [(label, item)])

/-- `_choices_map` from `project_creation_wizard.py`: an ordered mapping of
menu labels to original items, or a `ValueError` on a duplicate label. -/
def choices_map (items : List α) (formatter : α → String) :
    Except String (List (String × α)) :=
  choicesMapGo formatter items []

/-- One observable prompt shown to the user (title and the ordered labels
offered). -/
structure PromptShown where
  title : String
  labels : List String
deriving DecidableEq

/-- The menu fragment of the wizard (e.g. lines 78–91): build the lookup
with `_choices_map`, and only if that succeeds show the single-choice
prompt and resolve the returned label through the lookup. `prompter`
models `prompter.multiple_choice` as a function from title and labels to
the chosen label. The second component is the list of prompts shown. -/
def menuSelect (prompter : String → List String → String) (title : String)
    (items : List α) (formatter : α → String) :
    Except String α × List PromptShown :=
  match choices_map items formatter with
  | .error e => (.error e, [])
  | .ok lookup =>
    let labels := lookup.map Prod.fst
    let answer := prompter title labels
    match lookup.lookup answer with
    | some item => (.ok item, [⟨title, labels⟩])
    | none => (.error "no such label", [⟨title, labels⟩])

/-! ## project_creator.py

`ProjectCreator.create` coordinates external side effects. It is modelled
as a pure function from an `Env` (the behaviour of the filesystem and the
GitHub gateway) to a result plus the ordered trace of effects performed.
`yaml.safe_dump(init_data, sort_keys=False)` serializes the dict in
insertion order, so the manifest is recorded as the ordered association
list handed to `safe_dump`. -/

/-- `RepoCreationOptions` dataclass from `project_creator.py`. -/
structure RepoCreationOptions where
  owner : String
  visibility : String
deriving DecidableEq

/-- `ProjectParams` dataclass from `project_creator.py`. -/
structure ProjectParams where
  repo_path : String
  module_urls : List String
  project_name : String
  repo_options : Option RepoCreationOptions := none
deriving DecidableEq

/-- A value in the `init_data` dict handed to `yaml.safe_dump`: the dict
holds exactly strings and a list of strings. -/
inductive ManifestVal where
  | str (v : String)
  | strList (l : List String)
deriving DecidableEq

/-- One external side effect performed by the orchestrator, in order. -/
inductive Event where
  | mkdirParent (path : String)
  | clone (url : String) (target : String)
  | removeGitDir (path : String)
  | writeInit (path : String) (data : List (String × ManifestVal))
  | createRepo (nameWithOwner : String) (isPrivate : Bool)
  | pushInitialCommit (dest : String) (nameWithOwner : String)
      (branch : String) (message : String)
  | chdir (path : String)
  | hydrate (path : String)
  | logError (msg : String)
deriving DecidableEq

/-- The external world `create` runs against: `resolve` models
`Path(...).expanduser().resolve()`; `cloneResult url target` the return
value of `repo.clone_repo(target)`; `gitDirExists` whether the clone left
a `.git` directory; `createRepoOk` the gateway's answer to `create_repo`;
`cwd` the working directory before hydration and `hydrateResult` the
outcome of the external initializer (`some msg` = it raised). -/
structure Env where
  resolve : String → String
  cloneResult : String → String → Option String
  gitDirExists : String → Bool
  createRepoOk : String → Bool → Bool
  cwd : String
  hydrateResult : String → Option String

/-- Python truthiness test `not dest` on a `clone_repo` result: absent or
empty. -/
def pyFalsy : Option String → Bool
  | none => true
  | some v => v == ""

/-- `Path(p).parent` (up to the resolution `Env.resolve` already models):
drop the last `/`-component. -/
def parentPath (p : String) : String :=
  String.intercalate "/" (p.splitOn "/").dropLast

/-- `Path(p).name`: the last `/`-component. -/
def pathName (p : String) : String :=
  ((p.splitOn "/").getLast?).getD ""

/-- `ProjectCreator._prepare_target_path`: resolve `repo_path` and create
the parent directory. -/
def prepare_target_path (env : Env) (p : ProjectParams) : String × List Event :=
  let target := env.resolve p.repo_path
  (target, [.mkdirParent (parentPath target)])

/-- `ProjectCreator._clone_template`: clone, fail on a falsy destination,
resolve the returned destination and remove its `.git` directory if
present (`_remove_git_dir`). -/
def clone_template (env : Env) (template_url : String) (target : String) :
    Except String String × List Event :=
  let destOpt := env.cloneResult template_url target
  if pyFalsy destOpt then
    (.error ("Failed to clone template from " ++ template_url ++ " to " ++ target),
      [.clone template_url target])
  else
    let dest_path := env.resolve (destOpt.getD "")
    if env.gitDirExists dest_path then
      (.ok dest_path, [.clone template_url target, .removeGitDir dest_path])
    else
      (.ok dest_path, [.clone template_url target])

/-- The `init_data` dict built by `ProjectCreator._write_init_yaml`, in
insertion order. -/
def initData (p : ProjectParams) : List (String × ManifestVal) :=
  [("name", .str p.project_name), ("description", .str ""),
    ("modules", .strList p.module_urls)]

/-- `ProjectCreator._write_init_yaml`: one write of the serialized
`init_data` to `<dest>/init.yaml`. -/
def write_init_yaml (p : ProjectParams) (dest_path : String) : List Event :=
  [.writeInit (dest_path ++ "/init.yaml") (initData p)]

/-- `ProjectCreator._determine_repo_name`: strip the destination's base
name, fail if empty, and replace spaces by hyphens. -/
def determine_repo_name (dest : String) : Except String String :=
  let name := pyStripStr (pathName dest)
  if name = "" then
    .error "Unable to determine repository name from destination path"
  else
    .ok (name.replace " " "-")

/-- `ProjectCreator._maybe_create_remote_repo`: nothing when
`repo_options` is absent; otherwise create `<owner>/<repoName>` with the
requested visibility and push the initial commit to `main`. -/
def maybe_create_remote_repo (env : Env) (p : ProjectParams) (dest : String) :
    Except String Unit × List Event :=
  match p.repo_options with
  | none => (.ok (), [])
  | some options =>
    match determine_repo_name dest with
    | .error e => (.error e, [])
    | .ok repo_name =>
      let name_with_owner := options.owner ++ "/" ++ repo_name
      let is_private := pyLowerStr options.visibility == "private"
      if env.createRepoOk name_with_owner is_private then
        (.ok (), [.createRepo name_with_owner is_private,
          .pushInitialCommit dest name_with_owner "main" "init commit"])
      else
        (.error ("Failed to create remote repository " ++ name_with_owner),
          [.createRepo name_with_owner is_private])

/-- `ProjectCreator.create` from `project_creator.py`: prepare the target,
clone the template, write `init.yaml`, optionally provision the remote
repository, and return the destination path. -/
def ProjectCreator.create (env : Env) (p : ProjectParams) (template_url : String) :
    Except String String × List Event :=
  let (target, ev1) := prepare_target_path env p
  match clone_template env template_url target with
  | (.error e, ev2) => (.error e, ev1 ++ ev2)
  | (.ok dest_path, ev2) =>
    let ev3 := write_init_yaml p dest_path
    match maybe_create_remote_repo env p dest_path with
    | (.error e, ev4) => (.error e, ev1 ++ ev2 ++ ev3 ++ ev4)
    | (.ok _, ev4) => (.ok dest_path, ev1 ++ ev2 ++ ev3 ++ ev4)

/-- Modelled from the spec: the latest-design orchestrator adds a
module-hydration step between the manifest write and remote provisioning;
that version of `create` is not among the available source files (only the
superseded draft without hydration is). Per the spec it changes the
working directory to the new project root, invokes the external
initializer with the project root, and restores the prior working
directory on every exit path; a hydration failure is logged, the working
directory restored, and the error re-raised. -/
def ProjectCreator.createWithHydration (env : Env) (p : ProjectParams)
    (template_url : String) : Except String String × List Event :=
  let (target, ev1) := prepare_target_path env p
  match clone_template env template_url target with
  | (.error e, ev2) => (.error e, ev1 ++ ev2)
  | (.ok dest_path, ev2) =>
    let ev3 := write_init_yaml p dest_path
    let evEnter : List Event := [.chdir dest_path, .hydrate dest_path]
    match env.hydrateResult dest_path with
    | some msg =>
      (.error msg, ev1 ++ ev2 ++ ev3 ++ evEnter ++ [.logError msg, .chdir env.cwd])
    | none =>
      let evH := evEnter ++ [.chdir env.cwd]
      match maybe_create_remote_repo env p dest_path with
      | (.error e, ev4) => (.error e, ev1 ++ ev2 ++ ev3 ++ evH ++ ev4)
      | (.ok _, ev4) => (.ok dest_path, ev1 ++ ev2 ++ ev3 ++ evH ++ ev4)

/-! ## Theorems about the orchestrator (claims C1–C4) -/

/-- C1: for every `ProjectParams` with project name `n` and module URL
list `ms`, a successful run of `ProjectCreator.create` writes an
`init.yaml` manifest whose `name` field equals `n`, whose `description`
field is the empty string, and whose `modules` field equals `ms`
verbatim, in the same order, with keys serialized in the order
`name`, `description`, `modules`. -/
theorem create_writes_manifest_on_success (env : Env) (p : ProjectParams)
    (template_url : String)
    (h : ∃ dest, (ProjectCreator.create env p template_url).1 = .ok dest) :
    ∃ path,
      Event.writeInit path
          [("name", .str p.project_name), ("description", .str ""),
            ("modules", .strList p.module_urls)]
        ∈ (ProjectCreator.create env p template_url).2 ∧
      ([("name", ManifestVal.str p.project_name),
        ("description", ManifestVal.str ""),
        ("modules", ManifestVal.strList p.module_urls)].map Prod.fst
        = ["name", "description", "modules"]) := by
  obtain ⟨dest, hdest⟩ := h
  cases hc : pyFalsy (env.cloneResult template_url (env.resolve p.repo_path)) with
  | true =>
    simp [ProjectCreator.create, clone_template, prepare_target_path, hc] at hdest
  | false =>
    rcases hmc : maybe_create_remote_repo env p
        (env.resolve ((env.cloneResult template_url (env.resolve p.repo_path)).getD ""))
      with ⟨r4, ev4⟩
    cases hg : env.gitDirExists
        (env.resolve ((env.cloneResult template_url (env.resolve p.repo_path)).getD "")) <;>
      cases r4 <;>
      simp [ProjectCreator.create, clone_template, prepare_target_path, hc, hg, hmc,
        write_init_yaml, initData] at hdest ⊢

/-- C2: when the clone step reports no destination (absent or empty),
`ProjectCreator.create` fails and no manifest write is ever performed. -/
theorem create_no_manifest_on_clone_failure (env : Env) (p : ProjectParams)
    (template_url : String)
    (h : pyFalsy (env.cloneResult template_url (env.resolve p.repo_path)) = true) :
    (∃ e, (ProjectCreator.create env p template_url).1 = .error e) ∧
      ∀ path data,
        Event.writeInit path data ∉ (ProjectCreator.create env p template_url).2 := by
  simp [ProjectCreator.create, clone_template, prepare_target_path, h]

/-- C4: when `repo_options` is absent, `ProjectCreator.create` performs no
repository-creation call and no initial-push call on any execution path. -/
theorem create_no_remote_calls_without_options (env : Env) (p : ProjectParams)
    (template_url : String) (h : p.repo_options = none) :
    (∀ n b, Event.createRepo n b ∉ (ProjectCreator.create env p template_url).2) ∧
      ∀ d n br m,
        Event.pushInitialCommit d n br m ∉ (ProjectCreator.create env p template_url).2 := by
  cases hc : pyFalsy (env.cloneResult template_url (env.resolve p.repo_path)) with
  | true =>
    simp [ProjectCreator.create, clone_template, prepare_target_path, hc]
  | false =>
    cases hg : env.gitDirExists
        (env.resolve ((env.cloneResult template_url (env.resolve p.repo_path)).getD "")) <;>
      simp [ProjectCreator.create, clone_template, prepare_target_path, hc, hg,
        maybe_create_remote_repo, h, write_init_yaml]

/-- C3 (hydration step modelled from the spec): after writing the
manifest, the latest-design `create` changes the working directory to the
project root, invokes the external initializer with the project root, and
restores the prior working directory on every exit path; a hydration
failure is logged, the working directory restored, and the failure
re-raised to the caller. -/
theorem createWithHydration_scoped_chdir (env : Env) (p : ProjectParams)
    (template_url d : String)
    (h : env.cloneResult template_url (env.resolve p.repo_path) = some d)
    (hd : d ≠ "") :
    ∃ pre post,
      (ProjectCreator.createWithHydration env p template_url).2 =
        pre ++ [Event.writeInit (env.resolve d ++ "/init.yaml") (initData p),
          Event.chdir (env.resolve d), Event.hydrate (env.resolve d)] ++ post ∧
      (match env.hydrateResult (env.resolve d) with
        | some msg =>
            post = [Event.logError msg, Event.chdir env.cwd] ∧
            (ProjectCreator.createWithHydration env p template_url).1 = Except.error msg
        | none => post.head? = some (Event.chdir env.cwd)) := by
  rcases hmc : maybe_create_remote_repo env p (env.resolve d) with ⟨r4, ev4⟩
  cases hg : env.gitDirExists (env.resolve d)
  · cases hh : env.hydrateResult (env.resolve d) with
    | none =>
      refine ⟨[.mkdirParent (parentPath (env.resolve p.repo_path)),
        .clone template_url (env.resolve p.repo_path)],
        Event.chdir env.cwd :: ev4, ?_, ?_⟩
      · cases r4 <;> simp [ProjectCreator.createWithHydration, clone_template,
          prepare_target_path, h, pyFalsy, hd, hg, hh, hmc, write_init_yaml]
      · simp [hh]
    | some msg =>
      refine ⟨[.mkdirParent (parentPath (env.resolve p.repo_path)),
        .clone template_url (env.resolve p.repo_path)],
        [Event.logError msg, Event.chdir env.cwd], ?_, ?_⟩ <;>
        simp [ProjectCreator.createWithHydration, clone_template,
          prepare_target_path, h, pyFalsy, hd, hg, hh, write_init_yaml]
  · cases hh : env.hydrateResult (env.resolve d) with
    | none =>
      refine ⟨[.mkdirParent (parentPath (env.resolve p.repo_path)),
        .clone template_url (env.resolve p.repo_path), .removeGitDir (env.resolve d)],
        Event.chdir env.cwd :: ev4, ?_, ?_⟩
      · cases r4 <;> simp [ProjectCreator.createWithHydration, clone_template,
          prepare_target_path, h, pyFalsy, hd, hg, hh, hmc, write_init_yaml]
      · simp [hh]
    | some msg =>
      refine ⟨[.mkdirParent (parentPath (env.resolve p.repo_path)),
        .clone template_url (env.resolve p.repo_path), .removeGitDir (env.resolve d)],
        [Event.logError msg, Event.chdir env.cwd], ?_, ?_⟩ <;>
        simp [ProjectCreator.createWithHydration, clone_template,
          prepare_target_path, h, pyFalsy, hd, hg, hh, write_init_yaml]

/-! ### Concrete environments for evaluating the orchestrator theorems -/

/-- Concrete parameters: two module URLs, no remote-repository options. -/
def pTest : ProjectParams :=
  { repo_path := "/tmp/proj", module_urls := ["m1", "m2"], project_name := "proj",
    repo_options := none }

/-- A well-behaved world: cloning lands in the requested target, no `.git`
directory is left, remote creation succeeds, hydration succeeds. -/
def envTest : Env :=
  { resolve := id, cloneResult := fun _ target => some target,
    gitDirExists := fun _ => false, createRepoOk := fun _ _ => true,
    cwd := "/home", hydrateResult := fun _ => none }

/-- A world whose clone step reports no destination. -/
def envCloneFail : Env :=
  { envTest with cloneResult := fun _ _ => none }

/-- A world whose module-hydration step raises. -/
def envHydFail : Env :=
  { envTest with hydrateResult := fun _ => some "hydration failed" }

/-- Witness for C1: a successful concrete run writes the expected manifest. -/
theorem create_writes_manifest_on_success_witness :
    ∃ path,
      Event.writeInit path
          [("name", .str "proj"), ("description", .str ""),
            ("modules", .strList ["m1", "m2"])]
        ∈ (ProjectCreator.create envTest pTest "https://tmpl").2 ∧
      ([("name", ManifestVal.str "proj"), ("description", ManifestVal.str ""),
        ("modules", ManifestVal.strList ["m1", "m2"])].map Prod.fst
        = ["name", "description", "modules"]) :=
  create_writes_manifest_on_success envTest pTest "https://tmpl" ⟨"/tmp/proj", rfl⟩

/-- Witness for C2: a concrete failed clone yields an error and no
manifest write. -/
theorem create_no_manifest_on_clone_failure_witness :
    (∃ e, (ProjectCreator.create envCloneFail pTest "https://tmpl").1 = .error e) ∧
      ∀ path data,
        Event.writeInit path data ∉ (ProjectCreator.create envCloneFail pTest "https://tmpl").2 :=
  create_no_manifest_on_clone_failure envCloneFail pTest "https://tmpl" rfl

/-- Witness for C4: a concrete run without `repo_options` performs no
remote-repository calls. -/
theorem create_no_remote_calls_without_options_witness :
    (∀ n b, Event.createRepo n b ∉ (ProjectCreator.create envTest pTest "https://tmpl").2) ∧
      ∀ d n br m,
        Event.pushInitialCommit d n br m ∉ (ProjectCreator.create envTest pTest "https://tmpl").2 :=
  create_no_remote_calls_without_options envTest pTest "https://tmpl" rfl

/-- Witness for C3: on a concrete run whose hydration step raises, the
trace shows manifest write, chdir to the project root, hydration, the
logged error, the restoring chdir, and the re-raised failure. -/
theorem createWithHydration_scoped_chdir_witness :
    ∃ pre post,
      (ProjectCreator.createWithHydration envHydFail pTest "https://tmpl").2 =
        pre ++ [Event.writeInit ("/tmp/proj" ++ "/init.yaml") (initData pTest),
          Event.chdir "/tmp/proj", Event.hydrate "/tmp/proj"] ++ post ∧
      (post = [Event.logError "hydration failed", Event.chdir "/home"] ∧
        (ProjectCreator.createWithHydration envHydFail pTest "https://tmpl").1
          = Except.error "hydration failed") :=
  createWithHydration_scoped_chdir envHydFail pTest "https://tmpl" "/tmp/proj" rfl (by decide)

/-! ## Theorems about the catalog readers (claims C7, C8, C10) -/

/-- C8: `parse_preload_sets` fails if and only if the `options` key is
present and its value is not a mapping; and a set entry whose `urls`
value is not a list yields that set with an empty urls list rather than
an error. -/
theorem parse_preload_sets_error_iff (yf : List (String × YVal)) :
    ((∃ e, parse_preload_sets yf = .error e) ↔
      ∃ v, yf.lookup "options" = some v ∧ ∀ opts, v ≠ YVal.map opts) ∧
    ∀ opts name fields, yf.lookup "options" = some (.map opts) →
      (name, YVal.map fields) ∈ opts →
      (∀ us, fields.lookup "urls" ≠ some (.list us)) →
      ∃ always sets, parse_preload_sets yf = .ok (always, sets) ∧
        (⟨name, pyStr (yGet fields "description" (.s "")), []⟩ : PreloadSet) ∈ sets := by
  constructor
  · cases hlo : yf.lookup "options" with
    | none =>
      simp [parse_preload_sets, yGet, hlo]
    | some v =>
      cases v <;> simp [parse_preload_sets, yGet, hlo]
  · intro opts name fields hlo hmem hurls
    simp only [parse_preload_sets, yGet, hlo]
    refine ⟨_, _, rfl, ?_⟩
    refine List.mem_map.mpr ⟨(name, .map fields), hmem, ?_⟩
    simp only [preloadSetOfEntry]
    rcases hu : fields.lookup "urls" with _ | u
    · rfl
    · cases u with
      | list us => exact absurd hu (hurls _)
      | _ => rfl

/-- Witness for C8: a string-valued `options` key makes
`parse_preload_sets` fail. -/
theorem parse_preload_sets_error_iff_witness :
    ∃ e, parse_preload_sets [("options", YVal.s "x")] = .error e :=
  (parse_preload_sets_error_iff [("options", YVal.s "x")]).1.mpr
    ⟨YVal.s "x", rfl, fun _ h => YVal.noConfusion h⟩

/-- C10: an entry under `options` whose value is not a mapping does not
make `parse_preload_sets` fail: it yields a `PreloadSet` with that
entry's name, an empty description, and an empty urls list. -/
theorem parse_preload_sets_nonmapping_entry (yf : List (String × YVal))
    (opts : List (String × YVal)) (name : String) (value : YVal)
    (hopts : yf.lookup "options" = some (.map opts))
    (hmem : (name, value) ∈ opts)
    (hnm : ∀ fields, value ≠ YVal.map fields) :
    ∃ always sets, parse_preload_sets yf = .ok (always, sets) ∧
      (⟨name, "", []⟩ : PreloadSet) ∈ sets := by
  simp only [parse_preload_sets, yGet, hopts]
  refine ⟨_, _, rfl, ?_⟩
  refine List.mem_map.mpr ⟨(name, value), hmem, ?_⟩
  cases value <;> first
    | rfl
    | exact absurd rfl (hnm _)

/-- Witness for C10: a numeric entry under `options` is kept as an empty
`PreloadSet`, not an error. -/
theorem parse_preload_sets_nonmapping_entry_witness :
    ∃ always sets,
      parse_preload_sets [("options", YVal.map [("raw", YVal.i 7)])] = .ok (always, sets) ∧
      (⟨"raw", "", []⟩ : PreloadSet) ∈ sets :=
  parse_preload_sets_nonmapping_entry [("options", YVal.map [("raw", YVal.i 7)])]
    [("raw", YVal.i 7)] "raw" (YVal.i 7) rfl (List.mem_singleton.mpr rfl)
    (fun _ h => YVal.noConfusion h)

/-- What one catalog entry contributes to the parsed template list: a
`TemplateInfo` exactly when its string-coerced url is non-empty. -/
def templateEmit (entry : String × YVal) : Option TemplateInfo :=
  match entry.2 with
  | .map fields =>
    let desc := pyStr (yGet fields "description" (.s ""))
    let url := pyStr (yGet fields "url" (.s ""))
    if url = "" then none else some ⟨entry.1, desc, url⟩
  | _ => none

/-- On a catalog whose entry values are all mappings, the parsing loop
succeeds and returns exactly the entries' contributions, in order. -/
theorem listTemplatesGo_ok (entries : List (String × YVal))
    (hmaps : ∀ p ∈ entries, ∃ fields, p.2 = YVal.map fields) :
    listTemplatesGo entries = .ok (entries.filterMap templateEmit) := by
  induction entries with
  | nil => rfl
  | cons e rest ih =>
    obtain ⟨n, v⟩ := e
    obtain ⟨fields, hf⟩ := hmaps (n, v) (List.mem_cons_self _ _)
    simp only at hf
    subst hf
    rw [List.filterMap_cons]
    have ihok := ih fun p hp => hmaps p (List.mem_cons_of_mem _ hp)
    by_cases hurl : pyStr (yGet fields "url" (.s "")) = "" <;>
      simp [listTemplatesGo, ihok, templateEmit, hurl]

/-- A `templateEmit` result keeps the entry's name. -/
theorem templateEmit_name {entry : String × YVal} {t : TemplateInfo}
    (h : templateEmit entry = some t) : t.name = entry.1 := by
  obtain ⟨n, v⟩ := entry
  cases v <;> simp only [templateEmit] at h <;> try cases h
  split at h
  · cases h
  · cases h
    rfl

/-- In an association list with nodup keys, a key determines its value. -/
theorem eq_snd_of_nodup_keys {l : List (String × YVal)}
    (h : (l.map Prod.fst).Nodup) {a : String} {b c : YVal}
    (hb : (a, b) ∈ l) (hc : (a, c) ∈ l) : b = c := by
  induction l with
  | nil => cases hb
  | cons x rest ih =>
    rw [List.map_cons, List.nodup_cons] at h
    rcases List.mem_cons.mp hb with rfl | hb'
    · rcases List.mem_cons.mp hc with hcx | hc'
      · injection hcx with h1 h2
        exact h2.symm
      · exact absurd (List.mem_map.mpr ⟨(a, c), hc', rfl⟩) h.1
    · rcases List.mem_cons.mp hc with rfl | hc'
      · exact absurd (List.mem_map.mpr ⟨(a, b), hb', rfl⟩) h.1
      · exact ih h.2 hb' hc'

/-- C7: on a catalog document that is a mapping whose entry values are all
mappings, parsing succeeds, the parsed list is exactly the entries'
contributions in order, and an entry's name appears in the output iff its
`url` value is present with a non-empty string coercion — regardless of
the description. -/
theorem list_project_templates_url_filter (entries : List (String × YVal))
    (hmaps : ∀ p ∈ entries, ∃ fields, p.2 = YVal.map fields)
    (hkeys : (entries.map Prod.fst).Nodup) :
    ∃ out, list_project_templates (.map entries) = .ok out ∧
      out = entries.filterMap templateEmit ∧
      ∀ name value, (name, value) ∈ entries →
        ((∃ t ∈ out, t.name = name) ↔
          ∃ u, yLookup value "url" = some u ∧ pyStr u ≠ "") := by
  refine ⟨entries.filterMap templateEmit,
    listTemplatesGo_ok entries hmaps, rfl, ?_⟩
  intro name value hmem
  obtain ⟨fields, hf⟩ := hmaps (name, value) hmem
  simp only at hf
  subst hf
  constructor
  · rintro ⟨t, ht, hname⟩
    obtain ⟨⟨n', v'⟩, hmem', hemit⟩ := List.mem_filterMap.mp ht
    have hn' : n' = name := by
      rw [← hname, templateEmit_name hemit]
    subst hn'
    have hv' : v' = YVal.map fields := eq_snd_of_nodup_keys hkeys hmem' hmem
    subst hv'
    simp only [templateEmit, yLookup] at hemit ⊢
    rcases hu : fields.lookup "url" with _ | u
    · rw [yGet, hu] at hemit
      simp only [pyStr] at hemit
      simp at hemit
    · rw [yGet, hu] at hemit
      split at hemit
      · cases hemit
      · exact ⟨u, rfl, by assumption⟩
  · rintro ⟨u, hu, hne⟩
    simp only [yLookup] at hu
    refine ⟨⟨name, pyStr (yGet fields "description" (.s "")), pyStr u⟩,
      List.mem_filterMap.mpr ⟨(name, .map fields), hmem, ?_⟩, rfl⟩
    simp only [templateEmit, yGet, hu]
    simp [hne]

/-- Witness for C7: a two-entry catalog — one entry with a url, one with
only a description — parses to exactly the url-bearing entry. -/
theorem list_project_templates_url_filter_witness :
    ∃ out,
      list_project_templates
          (.map [("a", .map [("url", .s "https://x")]),
            ("b", .map [("description", .s "d")])]) = .ok out ∧
      out = [("a", YVal.map [("url", YVal.s "https://x")]),
        ("b", YVal.map [("description", YVal.s "d")])].filterMap templateEmit ∧
      ∀ name value,
        (name, value) ∈ [("a", YVal.map [("url", YVal.s "https://x")]),
          ("b", YVal.map [("description", YVal.s "d")])] →
        ((∃ t ∈ out, t.name = name) ↔
          ∃ u, yLookup value "url" = some u ∧ pyStr u ≠ "") :=
  list_project_templates_url_filter
    [("a", .map [("url", .s "https://x")]), ("b", .map [("description", .s "d")])]
    (by
      intro p hp
      rcases List.mem_cons.mp hp with rfl | hp'
      · exact ⟨_, rfl⟩
      · rcases List.mem_cons.mp hp' with rfl | hp''
        · exact ⟨_, rfl⟩
        · cases hp'')
    (by decide)

/-! ## Theorems about the wizard menus (claim C9) -/

/-- If the loop of `_choices_map` completes, the labels it has accumulated
plus the labels of the remaining items are pairwise distinct. -/
theorem choicesMapGo_ok_nodup {α : Type} (formatter : α → String)
    (items : List α) (lookup out : List (String × α))
    (hinv : (lookup.map Prod.fst).Nodup)
    (h : choicesMapGo formatter items lookup = .ok out) :
    (lookup.map Prod.fst ++ items.map formatter).Nodup := by
  induction items generalizing lookup with
  | nil =>
    simpa using hinv
  | cons item rest ih =>
    simp only [choicesMapGo] at h
    by_cases hdup : (lookup.map Prod.fst).contains (formatter item)
    · rw [if_pos hdup] at h
      cases h
    · rw [if_neg hdup] at h
      have hnotin : formatter item ∉ lookup.map Prod.fst := by
        simpa using hdup
      have hinv' : ((lookup ++ [(formatter item, item)]).map Prod.fst).Nodup := by
        rw [List.map_append, List.nodup_append]
        refine ⟨hinv, List.nodup_singleton _, ?_⟩
        intro a ha hmem
        simp only [List.map_cons, List.map_nil, List.mem_singleton] at hmem
        subst hmem
        exact hnotin ha
      have := ih (lookup ++ [(formatter item, item)]) hinv' h
      simpa [List.append_assoc] using this
    
/-- The only failure `_choices_map` can produce is the duplicate-label
`ValueError`. -/
theorem choicesMapGo_error_msg {α : Type} (formatter : α → String)
    (items : List α) (lookup : List (String × α)) (e : String)
    (h : choicesMapGo formatter items lookup = .error e) :
    e = "Duplicate option label generated for choices" := by
  induction items generalizing lookup with
  | nil => cases h
  | cons item rest ih =>
    simp only [choicesMapGo] at h
    by_cases hdup : (lookup.map Prod.fst).contains (formatter item)
    · rw [if_pos hdup] at h
      cases h
      rfl
    · rw [if_neg hdup] at h
      exact ih _ h

/-- C9: if two items at different positions render the same menu label,
the menu step fails with the ambiguous-choice `ValueError` and shows no
prompt at all. -/
theorem menuSelect_duplicate_label_fails {α : Type}
    (prompter : String → List String → String) (title : String)
    (items : List α) (formatter : α → String)
    (hdup : ∃ i j : Fin items.length, i ≠ j ∧
      formatter (items.get i) = formatter (items.get j)) :
    menuSelect prompter title items formatter =
      (.error "Duplicate option label generated for choices", []) := by
  have hnotnodup : ¬ (items.map formatter).Nodup := by
    rintro hnd
    obtain ⟨i, j, hij, heq⟩ := hdup
    have hii : i.1 < (items.map formatter).length := by simp [i.2]
    have hjj : j.1 < (items.map formatter).length := by simp [j.2]
    have h2 : (⟨i.1, hii⟩ : Fin (items.map formatter).length) = ⟨j.1, hjj⟩ := by
      rw [← hnd.get_inj_iff]
      simp only [List.get_eq_getElem, List.getElem_map]
      simpa [List.get_eq_getElem] using heq
    have h3 : i.1 = j.1 := by simpa using h2
    exact hij (Fin.ext h3)
  rcases hcm : choices_map items formatter with e | lookup
  · have := choicesMapGo_error_msg formatter items [] e hcm
    subst this
    simp [menuSelect, hcm]
  · have := choicesMapGo_ok_nodup formatter items [] lookup (by simp) hcm
    simp at this
    exact absurd this hnotnodup

/-- Witness for C9: two items with the same label make the menu step fail
without showing a prompt. -/
theorem menuSelect_duplicate_label_fails_witness :
    menuSelect (fun _ labels => labels.headD "") "Select a project template"
      ["x", "x"] (fun v => v) =
      (.error "Duplicate option label generated for choices", []) :=
  menuSelect_duplicate_label_fails (fun _ labels => labels.headD "")
    "Select a project template" ["x", "x"] (fun v => v)
    ⟨⟨0, by decide⟩, ⟨1, by decide⟩, by decide, rfl⟩

/-! ## Theorems about the module-URL merge (claim C5) -/

/-- Spec-side description of "duplicates removed, preserving
first-occurrence order": keep the head, drop its later duplicates,
recurse on the rest. -/
def dedupFirstOccur : List String → List String
  | [] => []
  | x :: xs => x :: dedupFirstOccur (xs.filter fun y => y ≠ x)
termination_by l => l.length
decreasing_by
  have := List.length_filter_le (fun y => decide (y ≠ x)) xs
  simp only [List.length_cons]
  omega

/-- Every element of the deduplicated list comes from the original. -/
theorem mem_of_mem_dedupFirstOccur {l : List String} {y : String}
    (h : y ∈ dedupFirstOccur l) : y ∈ l := by
  induction l using dedupFirstOccur.induct with
  | case1 =>
    rw [dedupFirstOccur] at h
    cases h
  | case2 x xs ih =>
    rw [dedupFirstOccur] at h
    rcases List.mem_cons.mp h with rfl | h'
    · exact List.mem_cons_self _ _
    · exact List.mem_cons_of_mem _ (List.mem_of_mem_filter (ih h'))

/-- The deduplicated list has no duplicates. -/
theorem dedupFirstOccur_nodup (l : List String) : (dedupFirstOccur l).Nodup := by
  induction l using dedupFirstOccur.induct with
  | case1 =>
    rw [dedupFirstOccur]
    exact List.nodup_nil
  | case2 x xs ih =>
    rw [dedupFirstOccur, List.nodup_cons]
    refine ⟨fun hx => ?_, ih⟩
    have := List.of_mem_filter (mem_of_mem_dedupFirstOccur hx)
    simp at this

/-- The running fold of `dict.fromkeys` against the recursive
first-occurrence deduplication. -/
theorem dictFromkeys_foldl (l : List String) : ∀ acc : List String,
    l.foldl (fun acc x => if x ∈ acc then acc else acc ++ [x]) acc =
      acc ++ dedupFirstOccur (l.filter fun y => y ∉ acc) := by
  induction l with
  | nil =>
    intro acc
    simp [dedupFirstOccur]
  | cons x xs ih =>
    intro acc
    by_cases hx : x ∈ acc
    · have hfil : (x :: xs).filter (fun y => decide (y ∉ acc)) =
          xs.filter (fun y => decide (y ∉ acc)) := by
        simp [List.filter_cons, hx]
      rw [List.foldl_cons, if_pos hx, hfil]
      exact ih acc
    · have hfil : (x :: xs).filter (fun y => decide (y ∉ acc)) =
          x :: xs.filter (fun y => decide (y ∉ acc)) := by
        simp [List.filter_cons, hx]
    
      have hff : (xs.filter fun y => decide (y ∉ acc)).filter (fun y => y ≠ x) =
          xs.filter fun y => decide (y ∉ acc ++ [x]) := by
        rw [List.filter_filter]
        refine List.filter_congr fun a _ => ?_
        by_cases hax : a = x
        · subst hax
          simp
        · by_cases hacc : a ∈ acc <;> simp [hacc, hax]
      rw [List.foldl_cons, if_neg hx, ih (acc ++ [x]), hfil, dedupFirstOccur, hff]
      simp

/-- C5: the merged module URL list is the concatenation of the always-URLs
with the selected set's URLs, duplicates removed preserving
first-occurrence order (and hence without duplicates); in particular
`always = ["a","b"]` and `selected = ["b","c"]` merge to `["a","b","c"]`. -/
theorem mergeModuleUrls_dedup_first :
    (∀ always_urls selected_urls : List String,
      mergeModuleUrls always_urls selected_urls =
        dedupFirstOccur (always_urls ++ selected_urls) ∧
      (mergeModuleUrls always_urls selected_urls).Nodup) ∧
    mergeModuleUrls ["a", "b"] ["b", "c"] = ["a", "b", "c"] := by
  have key : ∀ l : List String, dictFromkeys l = dedupFirstOccur l := by
    intro l
    rw [dictFromkeys, dictFromkeys_foldl l []]
    simp only [List.nil_append]
    congr 1
    refine List.filter_eq_self.mpr fun a _ => ?_
    simp
  constructor
  · intro always_urls selected_urls
    refine ⟨key _, ?_⟩
    rw [mergeModuleUrls, key]
    exact dedupFirstOccur_nodup _
  · decide

/-! ## Theorems about `_to_snake_case` (claim C6)

A normalized name consists of digits, lowercase letters and single
separating underscores, with no underscore at either end; every output of
`to_snake_case` has this shape (or is the fallback `"project"`, which
also has it), and the pipeline is the identity on strings of this shape —
idempotence follows. -/

/-- Characters that survive the full pipeline unchanged: digits and
lowercase letters. -/
def lowerAlnumChar (c : Char) : Bool :=
  (48 ≤ c.toNat && c.toNat ≤ 57) || (97 ≤ c.toNat && c.toNat ≤ 122)

/-- Two characters with the same code point are equal. -/
theorem char_eq_of_toNat_eq {a b : Char} (h : a.toNat = b.toNat) : a = b := by
  have h2 : a.val.toNat = b.val.toNat := h
  exact Char.eq_of_val_eq (UInt32.toNat.inj h2)

/-- Code-point ranges of `lowerAlnumChar`. -/
theorem lowerAlnum_toNat {c : Char} (h : lowerAlnumChar c = true) :
    48 ≤ c.toNat ∧ c.toNat ≤ 57 ∨ 97 ≤ c.toNat ∧ c.toNat ≤ 122 := by
  simp only [lowerAlnumChar, Bool.or_eq_true, Bool.and_eq_true, decide_eq_true_eq] at h
  exact h

/-- `lowerAlnumChar` from code-point ranges. -/
theorem lowerAlnum_of_toNat {c : Char}
    (h : 48 ≤ c.toNat ∧ c.toNat ≤ 57 ∨ 97 ≤ c.toNat ∧ c.toNat ≤ 122) :
    lowerAlnumChar c = true := by
  simp only [lowerAlnumChar, Bool.or_eq_true, Bool.and_eq_true, decide_eq_true_eq]
  omega

/-- Code-point ranges of `isAlnumChar`. -/
theorem alnum_toNat {c : Char} (h : isAlnumChar c = true) :
    48 ≤ c.toNat ∧ c.toNat ≤ 57 ∨ 97 ≤ c.toNat ∧ c.toNat ≤ 122 ∨
      65 ≤ c.toNat ∧ c.toNat ≤ 90 := by
  simp only [isAlnumChar, Bool.or_eq_true, Bool.and_eq_true, decide_eq_true_eq] at h
  omega

/-- `isAlnumChar` from code-point ranges. -/
theorem alnum_of_toNat {c : Char}
    (h : 48 ≤ c.toNat ∧ c.toNat ≤ 57 ∨ 97 ≤ c.toNat ∧ c.toNat ≤ 122 ∨
      65 ≤ c.toNat ∧ c.toNat ≤ 90) :
    isAlnumChar c = true := by
  simp only [isAlnumChar, Bool.or_eq_true, Bool.and_eq_true, decide_eq_true_eq]
  omega

/-- Code points matched by the whitespace class. -/
theorem isSpaceChar_toNat {c : Char} (h : isSpaceChar c = true) :
    c.toNat = 32 ∨ c.toNat = 9 ∨ c.toNat = 10 ∨ c.toNat = 13 ∨
      c.toNat = 11 ∨ c.toNat = 12 := by
  simp only [isSpaceChar, Bool.or_eq_true, beq_iff_eq] at h
  rcases h with ((((rfl | rfl) | rfl) | rfl) | rfl) | rfl <;> decide

/-- A digit, lowercase letter or underscore is not stripped whitespace. -/
theorem normChar_not_space {c : Char} (h : lowerAlnumChar c = true ∨ c = '_') :
    isSpaceChar c = false := by
  by_contra hs
  have hs' : isSpaceChar c = true := by
    revert hs
    cases hsp : isSpaceChar c <;> simp
  have h1 := isSpaceChar_toNat hs'
  rcases h with h | rfl
  · have := lowerAlnum_toNat h
    omega
  · exact absurd h1 (by decide)

/-- The code point of `toLowerChar`. -/
theorem toNat_toLowerChar (c : Char) :
    (toLowerChar c).toNat =
      if 65 ≤ c.toNat ∧ c.toNat ≤ 90 then c.toNat + 32 else c.toNat := by
  rw [toLowerChar]
  split
  · rename_i h
    rw [Char.ofNat, dif_pos (Or.inl (by omega))]
    unfold Char.ofNatAux
    simp [Char.toNat, UInt32.toNat, BitVec.toNat_ofNatLt]
  · rfl

/-- `toLowerChar` fixes digits, lowercase letters and the underscore. -/
theorem toLowerChar_fixes {c : Char} (h : lowerAlnumChar c = true ∨ c = '_') :
    toLowerChar c = c := by
  rw [toLowerChar, if_neg]
  rcases h with h | rfl
  · have := lowerAlnum_toNat h
    omega
  · decide

/-- `toLowerChar` maps `[0-9a-zA-Z]` into digits and lowercase letters. -/
theorem toLower_lowerAlnum {c : Char} (h : isAlnumChar c = true) :
    lowerAlnumChar (toLowerChar c) = true := by
  apply lowerAlnum_of_toNat
  rw [toNat_toLowerChar]
  have := alnum_toNat h
  split <;> omega

/-- `toLowerChar` preserves membership in `[0-9a-zA-Z]`. -/
theorem toLower_alnum {c : Char} (h : isAlnumChar c = true) :
    isAlnumChar (toLowerChar c) = true := by
  apply alnum_of_toNat
  rw [toNat_toLowerChar]
  have := alnum_toNat h
  split <;> omega

/-- The head of a list is a member (Option form). -/
theorem mem_of_head?_eq {α : Type} {l : List α} {c : α} (h : l.head? = some c) :
    c ∈ l :=
  List.mem_of_mem_head? (by simp [h])

/-- The last element of a list is a member (Option form). -/
theorem mem_of_getLast?_eq {α : Type} {l : List α} {c : α} (h : l.getLast? = some c) :
    c ∈ l :=
  List.mem_of_mem_getLast? (by simp [h])

/-- `Chain'` transfer along an implication that may use membership. -/
theorem chain'_imp_mem {α : Type} {R S : α → α → Prop} :
    ∀ {l : List α}, (∀ a ∈ l, ∀ b ∈ l, R a b → S a b) → l.Chain' R → l.Chain' S
  | [], _, _ => List.chain'_nil
  | [_], _, _ => List.chain'_singleton _
  | a :: b :: t, h, hc => by
    rw [List.chain'_cons] at hc ⊢
    refine ⟨h a (by simp) b (by simp) hc.1, chain'_imp_mem ?_ hc.2⟩
    intro x hx y hy hr
    exact h x (List.mem_cons_of_mem _ hx) y (List.mem_cons_of_mem _ hy) hr

/-- Every character of a run-collapsed list is the replacement character
or an original character not matched by the class. -/
theorem mem_collapseGo {p : Char → Bool} {r : Char} :
    ∀ {l : List Char} {b : Bool} {c : Char}, c ∈ collapseGo p r b l →
      c = r ∨ (c ∈ l ∧ p c = false) := by
  intro l
  induction l with
  | nil =>
    intro b c h
    simp [collapseGo] at h
  | cons a t ih =>
    intro b c h
    rw [collapseGo] at h
    by_cases hp : p a
    · rw [if_pos hp] at h
      cases b with
      | true =>
        rcases ih h with hr | ⟨hm, hpc⟩
        · exact .inl hr
        · exact .inr ⟨List.mem_cons_of_mem _ hm, hpc⟩
      | false =>
        rcases List.mem_cons.mp h with rfl | h'
        · exact .inl rfl
        · rcases ih h' with hr | ⟨hm, hpc⟩
          · exact .inl hr
          · exact .inr ⟨List.mem_cons_of_mem _ hm, hpc⟩
    · rw [if_neg hp] at h
      rcases List.mem_cons.mp h with rfl | h'
      · exact .inr ⟨List.mem_cons_self _ _, by simpa using hp⟩
      · rcases ih h' with hr | ⟨hm, hpc⟩
        · exact .inl hr
        · exact .inr ⟨List.mem_cons_of_mem _ hm, hpc⟩

/-- A run-collapsed list never has two adjacent characters of the class;
moreover in run-continuation state its first character is out of the
class. -/
theorem collapseGo_chain {p : Char → Bool} {r : Char} :
    ∀ (l : List Char) (b : Bool),
      (collapseGo p r b l).Chain' (fun a c => ¬(p a = true ∧ p c = true)) ∧
      (b = true → ∀ c, (collapseGo p r b l).head? = some c → p c = false) := by
  intro l
  induction l with
  | nil =>
    intro b
    refine ⟨by simp [collapseGo], ?_⟩
    intro _ c h
    simp [collapseGo] at h
  | cons a t ih =>
    intro b
    by_cases hp : p a
    · cases b with
      | true =>
        rw [collapseGo, if_pos hp]
        exact ⟨(ih true).1, fun _ => (ih true).2 rfl⟩
      | false =>
        rw [collapseGo, if_pos hp, if_neg Bool.false_ne_true]
        refine ⟨?_, ?_⟩
        · rw [List.chain'_cons']
          refine ⟨?_, (ih true).1⟩
          intro y hy
          have := (ih true).2 rfl y hy
          intro hcon
          rw [this] at hcon
          exact Bool.false_ne_true hcon.2
        · intro hfalse
          cases hfalse
    · rw [collapseGo, if_neg hp]
      refine ⟨?_, ?_⟩
      · rw [List.chain'_cons']
        refine ⟨?_, (ih false).1⟩
        intro y _
        intro hcon
        exact hp (by simp [hcon.1])
      · intro _ c hc
        cases hc
        simpa using hp

/-- Run-collapsing is the identity on a list whose class characters are
all the replacement character and never adjacent. -/
theorem collapseGo_eq_self {p : Char → Bool} {r : Char} :
    ∀ l : List Char, (∀ c ∈ l, p c = true → c = r) →
      l.Chain' (fun a c => ¬(p a = true ∧ p c = true)) →
      collapseGo p r false l = l := by
  intro l
  induction l with
  | nil => intro _ _; rfl
  | cons a t ih =>
    intro hmem hchain
    by_cases hp : p a
    · have ha : a = r := hmem a (List.mem_cons_self _ _) hp
      subst ha
      rw [collapseGo, if_pos hp, if_neg Bool.false_ne_true]
      congr 1
      cases t with
      | nil => rfl
      | cons d ds =>
        have hR := (List.chain'_cons.mp hchain).1
        have hpd : p d = false := by
          cases hpd2 : p d
          · rfl
          · exact absurd ⟨hp, hpd2⟩ hR
        have htail : collapseGo p a false (d :: ds) = d :: ds :=
          ih (fun c hc hpc => hmem c (List.mem_cons_of_mem _ hc) hpc)
            (List.chain'_cons.mp hchain).2
        rw [collapseGo, if_neg (by simp [hpd])] at htail
        rw [collapseGo, if_neg (by simp [hpd])]
        exact htail
    · rw [collapseGo, if_neg hp]
      exact congrArg _ (ih (fun c hc hpc => hmem c (List.mem_cons_of_mem _ hc) hpc)
        (List.Chain'.tail hchain))

/-- `trimChar q l` is a contiguous fragment of `l`. -/
theorem trimChar_within (q : Char → Bool) (l : List Char) : trimChar q l <:+: l := by
  have h1 : l.dropWhile q <:+ l := List.dropWhile_suffix q
  have h2 : (l.dropWhile q).reverse.dropWhile q <:+ (l.dropWhile q).reverse :=
    List.dropWhile_suffix q
  have h3 : ((l.dropWhile q).reverse.dropWhile q).reverse <+: l.dropWhile q := by
    rw [← List.reverse_suffix]
    simpa using h2
  exact h3.isInfix.trans h1.isInfix

/-- The head of a `dropWhile` is out of the dropped class. -/
theorem head?_dropWhile_not {q : Char → Bool} :
    ∀ {l : List Char} {c : Char}, (l.dropWhile q).head? = some c → q c = false := by
  intro l
  induction l with
  | nil =>
    intro c h
    cases h
  | cons a t ih =>
    intro c h
    rw [List.dropWhile_cons] at h
    by_cases hq : q a
    · rw [if_pos hq] at h
      exact ih h
    · rw [if_neg hq] at h
      cases h
      simpa using hq

/-- The head of a trimmed list is out of the trimmed class. -/
theorem trimChar_head? {q : Char → Bool} {l : List Char} {c : Char}
    (h : (trimChar q l).head? = some c) : q c = false := by
  rw [trimChar, List.head?_reverse] at h
  have hne : (l.dropWhile q).reverse.dropWhile q ≠ [] := by
    intro hnil
    rw [hnil] at h
    cases h
  have hsuf : (l.dropWhile q).reverse.dropWhile q <:+ (l.dropWhile q).reverse :=
    List.dropWhile_suffix q
  obtain ⟨t, ht⟩ := hsuf
  have hlast : ((l.dropWhile q).reverse.dropWhile q).getLast? =
      (l.dropWhile q).reverse.getLast? := by
    conv_rhs => rw [← ht]
    exact (List.getLast?_append_of_ne_nil t hne).symm
  rw [hlast, List.getLast?_reverse] at h
  exact head?_dropWhile_not h

/-- The last character of a trimmed list is out of the trimmed class. -/
theorem trimChar_getLast? {q : Char → Bool} {l : List Char} {c : Char}
    (h : (trimChar q l).getLast? = some c) : q c = false := by
  rw [trimChar, List.getLast?_reverse] at h
  exact head?_dropWhile_not h

/-- `dropWhile` is the identity when the head is out of the class. -/
theorem dropWhile_eq_self_of_head {q : Char → Bool} {l : List Char}
    (h : ∀ c, l.head? = some c → q c = false) : l.dropWhile q = l := by
  cases l with
  | nil => rfl
  | cons a t =>
    rw [List.dropWhile_cons, if_neg]
    simp [h a rfl]

/-- Trimming is the identity when both ends are out of the class. -/
theorem trimChar_eq_self {q : Char → Bool} {l : List Char}
    (hh : ∀ c, l.head? = some c → q c = false)
    (hl : ∀ c, l.getLast? = some c → q c = false) : trimChar q l = l := by
  rw [trimChar, dropWhile_eq_self_of_head hh,
    dropWhile_eq_self_of_head fun c hc => hl c (by rwa [List.head?_reverse] at hc)]
  exact List.reverse_reverse l

/-- The shape of a normalized project name: digits, lowercase letters and
underscores only, no two adjacent underscores, and an alphanumeric
character at each end. -/
structure NormalSnake (l : List Char) : Prop where
  chars : ∀ c ∈ l, lowerAlnumChar c = true ∨ c = '_'
  chain : l.Chain' fun a b => isAlnumChar a = true ∨ isAlnumChar b = true
  headAlnum : ∀ c, l.head? = some c → isAlnumChar c = true
  lastAlnum : ∀ c, l.getLast? = some c → isAlnumChar c = true

/-- The underscored core of `to_snake_case`: everything except the final
empty-fallback. -/
def snakeBody (l : List Char) : List Char :=
  (trimChar (fun c => c == '_')
      (collapseRuns (fun c => c == '_') '_'
        (collapseRuns (fun c => !isAlnumChar c) '_' (pyStripList l)))).map toLowerChar

/-- `to_snake_case` through `snakeBody`. -/
theorem to_snake_case_eq (v : String) :
    to_snake_case v =
      if (snakeBody v.data).isEmpty then "project" else String.mk (snakeBody v.data) := rfl

/-- Characters of the twice-collapsed list: alphanumeric or underscore. -/
theorem collapse2_chars {w1 : List Char} :
    ∀ c ∈ collapseRuns (fun c => c == '_') '_'
        (collapseRuns (fun c => !isAlnumChar c) '_' w1),
      isAlnumChar c = true ∨ c = '_' := by
  intro c hc
  rw [collapseRuns] at hc
  rcases mem_collapseGo hc with rfl | ⟨hm, _⟩
  · right
    rfl
  · rw [collapseRuns] at hm
    rcases mem_collapseGo hm with rfl | ⟨_, hpc2⟩
    · right
      rfl
    · left
      simpa using hpc2

/-- The twice-collapsed list has an alphanumeric character in every
adjacent pair. -/
theorem collapse2_chain {w1 : List Char} :
    (collapseRuns (fun c => c == '_') '_'
        (collapseRuns (fun c => !isAlnumChar c) '_' w1)).Chain'
      fun a b => isAlnumChar a = true ∨ isAlnumChar b = true := by
  have hch := (@collapseGo_chain (fun c => c == '_') '_'
    (collapseRuns (fun c => !isAlnumChar c) '_' w1) false).1
  rw [show collapseGo (fun c => c == '_') '_' false
      (collapseRuns (fun c => !isAlnumChar c) '_' w1) =
    collapseRuns (fun c => c == '_') '_'
      (collapseRuns (fun c => !isAlnumChar c) '_' w1) from rfl] at hch
  refine chain'_imp_mem ?_ hch
  intro a ha b hb hr
  rcases @collapse2_chars w1 a ha with haa | rfl
  · exact .inl haa
  · rcases @collapse2_chars w1 b hb with hbb | rfl
    · exact .inr hbb
    · exact absurd ⟨rfl, rfl⟩ hr

/-- Every output of the snake-case pipeline is in normal form. -/
theorem snakeBody_normal (l : List Char) : NormalSnake (snakeBody l) := by
  rw [snakeBody]
  constructor
  · intro c hc
    obtain ⟨d, hd4, rfl⟩ := List.mem_map.mp hc
    have hd3 := (trimChar_within _ _).sublist.subset hd4
    rcases collapse2_chars d hd3 with hal | rfl
    · exact .inl (toLower_lowerAlnum hal)
    · right
      decide
  · have h3 := @collapse2_chain (pyStripList l)
    have h4 := h3.infix (trimChar_within (fun c => c == '_')
      (collapseRuns (fun c => c == '_') '_'
        (collapseRuns (fun c => !isAlnumChar c) '_' (pyStripList l))))
    rw [List.chain'_map]
    exact h4.imp fun a b hab => hab.imp (fun h => toLower_alnum h) fun h => toLower_alnum h
  · intro c hc
    rw [List.head?_map] at hc
    rcases hw : (trimChar (fun c => c == '_')
        (collapseRuns (fun c => c == '_') '_'
          (collapseRuns (fun c => !isAlnumChar c) '_' (pyStripList l)))).head? with _ | d
    · rw [hw] at hc
      cases hc
    · rw [hw] at hc
      injection hc with hc
      subst hc
      have hne : d ≠ '_' := by
        have := trimChar_head? hw
        simpa using this
      have hmem := mem_of_head?_eq hw
      have hd3 := (trimChar_within _ _).sublist.subset hmem
      rcases collapse2_chars d hd3 with hal | rfl
      · exact toLower_alnum hal
      · exact absurd rfl hne
  · intro c hc
    rw [List.getLast?_map] at hc
    rcases hw : (trimChar (fun c => c == '_')
        (collapseRuns (fun c => c == '_') '_'
          (collapseRuns (fun c => !isAlnumChar c) '_' (pyStripList l)))).getLast? with _ | d
    · rw [hw] at hc
      cases hc
    · rw [hw] at hc
      injection hc with hc
      subst hc
      have hne : d ≠ '_' := by
        have := trimChar_getLast? hw
        simpa using this
      have hmem := mem_of_getLast?_eq hw
      have hd3 := (trimChar_within _ _).sublist.subset hmem
      rcases collapse2_chars d hd3 with hal | rfl
      · exact toLower_alnum hal
      · exact absurd rfl hne

/-- `map` is the identity when the function fixes every element. -/
theorem map_eq_self_of_fixes {f : Char → Char} :
    ∀ m : List Char, (∀ c ∈ m, f c = c) → m.map f = m := by
  intro m
  induction m with
  | nil => intro _; rfl
  | cons a t ih =>
    intro hm
    rw [List.map_cons, hm a (List.mem_cons_self _ _),
      ih fun c hc => hm c (List.mem_cons_of_mem _ hc)]

/-- The snake-case pipeline is the identity on normal-form names. -/
theorem snakeBody_eq_self {l : List Char} (h : NormalSnake l) : snakeBody l = l := by
  have hnotspace : ∀ c ∈ l, isSpaceChar c = false := fun c hc =>
    normChar_not_space (h.chars c hc)
  have hstrip : pyStripList l = l := by
    rw [pyStripList]
    refine trimChar_eq_self ?_ ?_
    · intro c hc
      exact hnotspace c (mem_of_head?_eq hc)
    · intro c hc
      exact hnotspace c (mem_of_getLast?_eq hc)
  have hchainNA : l.Chain' fun a b =>
      ¬((!isAlnumChar a) = true ∧ (!isAlnumChar b) = true) := by
    refine h.chain.imp ?_
    rintro a b hab ⟨h1, h2⟩
    rcases hab with hab | hab
    · rw [hab] at h1
      exact absurd h1 (by simp)
    · rw [hab] at h2
      exact absurd h2 (by simp)
  have h1 : collapseRuns (fun c => !isAlnumChar c) '_' l = l := by
    rw [collapseRuns]
    refine collapseGo_eq_self l ?_ hchainNA
    intro c hc hpc
    rcases h.chars c hc with hl | rfl
    · have halc : isAlnumChar c = true := alnum_of_toNat (by
        rcases lowerAlnum_toNat hl with h' | h' <;> omega)
      rw [halc] at hpc
      exact absurd hpc (by simp)
    · rfl
  have hchainU : l.Chain' fun a b => ¬((a == '_') = true ∧ (b == '_') = true) := by
    refine h.chain.imp ?_
    rintro a b hab ⟨h1, h2⟩
    have ha : a = '_' := by simpa using h1
    have hb : b = '_' := by simpa using h2
    subst ha
    subst hb
    rcases hab with hab | hab <;> exact absurd hab (by decide)
  have h2 : collapseRuns (fun c => c == '_') '_' l = l := by
    rw [collapseRuns]
    refine collapseGo_eq_self l ?_ hchainU
    intro c _ hc
    simpa using hc
  have hne : ∀ c, isAlnumChar c = true → (c == '_') = false := by
    intro c hc
    cases hbe : c == '_'
    · rfl
    · have hcu : c = '_' := by simpa using hbe
      subst hcu
      exact absurd hc (by decide)
  have h4 : trimChar (fun c => c == '_') l = l :=
    trimChar_eq_self (fun c hc => hne c (h.headAlnum c hc))
      fun c hc => hne c (h.lastAlnum c hc)
  have h5 : l.map toLowerChar = l :=
    map_eq_self_of_fixes l fun c hc => toLowerChar_fixes (h.chars c hc)
  rw [snakeBody, hstrip, h1, h2, h4, h5]

/-- C6: project-name normalization is idempotent, and on the spec's two
examples it yields `"my_cool_project"` and the fallback `"project"`. -/
theorem to_snake_case_idempotent :
    (∀ x : String, to_snake_case (to_snake_case x) = to_snake_case x) ∧
    to_snake_case "My Cool Project!!" = "my_cool_project" ∧
    to_snake_case "   " = "project" := by
  refine ⟨?_, by decide, by decide⟩
  intro x
  by_cases hb : (snakeBody x.data).isEmpty
  · rw [to_snake_case_eq x, if_pos hb]
    decide
  · rw [to_snake_case_eq x, if_neg hb,
      to_snake_case_eq (String.mk (snakeBody x.data))]
    have hd : (String.mk (snakeBody x.data)).data = snakeBody x.data := rfl
    rw [hd, snakeBody_eq_self (snakeBody_normal x.data), if_neg hb]
